import Mathlib

/-!
# Verification of the gokvstore durability core

A shallow embedding of the `kv` package (files `main.go`, `log.go`):
the CRC-32 (IEEE) checksum used for journal records, the 9-byte frame
codec (`jEncode`/`jDecode`), the journal replay algorithm (`play`),
the journal append path (`journal.log`), and the store operations
(`New`, `Get`, `Set`, `Unset`, `Flush`, `Coalesce`).

Machine integers are modelled as `Nat` with explicit `% 2^w` at the
points where the Go code truncates (`byte(op)`, `uint32(buf.Len())`,
`binary.BigEndian`).  Byte strings (Go `string` and `[]byte`) are
`List Nat` whose in-range elements are `< 256`; where a proof needs the
byte bound it is an explicit hypothesis.  File contents and the
buffered writer are explicit fields of the store state; fallible I/O
on the journal append path is an explicit boolean parameter.
-/

namespace GoKV

/-! ## CRC-32 (IEEE), as in Go `hash/crc32` with the IEEE polynomial.
`crcTab i` is the classic 256-entry table value for index `i` (eight
steps of the reflected-polynomial bit loop), `crcUpdate` is one step of
`crc32.Update` (`crc = tab[byte(crc)^b] ^ (crc>>8)` on `uint32`), and
`crc32Ieee` is `crc32.ChecksumIEEE`: initial value `0xFFFFFFFF`, fold,
final complement. -/

def crcPoly : Nat := 0xEDB88320

def crcTabStep (x : Nat) : Nat :=
  if x % 2 = 1 then (x / 2) ^^^ crcPoly else x / 2

def crcTab (i : Nat) : Nat := crcTabStep^[8] i

def crcUpdate (crc b : Nat) : Nat :=
  crcTab ((crc ^^^ b) % 256) ^^^ (crc >>> 8)

def crc32Ieee (data : List Nat) : Nat :=
  (data.foldl crcUpdate 0xFFFFFFFF) ^^^ 0xFFFFFFFF

/-! ## Frame codec (`log.go`: `jEncode`, `jDecode`).
`putUint32` is `binary.BigEndian.PutUint32` (each emitted byte is the
`byte(..)` truncation of a shift); `beUint32` is
`binary.BigEndian.Uint32` — for byte-range inputs the bitwise-or of
the disjoint shifted bytes equals this sum. -/

def putUint32 (n : Nat) : List Nat :=
  [n >>> 24 % 256, n >>> 16 % 256, n >>> 8 % 256, n % 256]

def beUint32 (b0 b1 b2 b3 : Nat) : Nat :=
  b0 % 256 * 2 ^ 24 + b1 % 256 * 2 ^ 16 + b2 % 256 * 2 ^ 8 + b3 % 256

def jEncode (op length crc : Nat) : List Nat :=
  op % 256 :: (putUint32 length ++ putUint32 crc)

def jDecode (buf : List Nat) : Option (Nat × Nat × Nat) :=
  if buf.length = 9 then
    some (buf.getD 0 0,
      beUint32 (buf.getD 1 0) (buf.getD 2 0) (buf.getD 3 0) (buf.getD 4 0),
      beUint32 (buf.getD 5 0) (buf.getD 6 0) (buf.getD 7 0) (buf.getD 8 0))
  else none

/-! ## Values and the payload codec.

Go stores `any`-typed values; per the spec they are a self-describing
sum over nil / integer / byte-string.  `Tx` is `log.go`'s
`Tx{Key string, Value any}` with Go strings as byte lists.

The serializer below is *modelled from the spec*: the repository uses
the standard library's `encoding/gob` (outside the repository) as a
"self-describing structured codec" for Transaction payloads and for
the whole-map snapshot.  The model is a concrete self-describing,
injective byte codec (varint lengths, tagged values); every emitted
byte is `< 256`. -/

inductive GoVal where
  | vNil : GoVal
  | vInt : Int → GoVal
  | vStr : List Nat → GoVal
deriving DecidableEq, Repr

structure Tx where
  key : List Nat
  value : GoVal
deriving DecidableEq, Repr

/-- Varint: 7 data bits per byte, high bit set on non-final bytes. -/
def encNat (n : Nat) : List Nat :=
  if h : n < 128 then [n] else (128 + n % 128) :: encNat (n / 128)
decreasing_by
  exact Nat.div_lt_self (by omega) (by omega)

def decNat : List Nat → Option (Nat × List Nat)
  | [] => none
  | b :: rest =>
    if b < 128 then some (b, rest)
    else
      match decNat rest with
      | some (m, rest') => some (b - 128 + 128 * m, rest')
      | none => none

def encBytes (bs : List Nat) : List Nat := encNat bs.length ++ bs

def decBytes (l : List Nat) : Option (List Nat × List Nat) :=
  match decNat l with
  | none => none
  | some (n, r) => if n ≤ r.length then some (r.take n, r.drop n) else none

def encVal : GoVal → List Nat
  | .vNil => [0]
  | .vInt (.ofNat n) => 1 :: 0 :: encNat n
  | .vInt (.negSucc n) => 1 :: 1 :: encNat n
  | .vStr s => 2 :: encBytes s

def decVal : List Nat → Option (GoVal × List Nat)
  | [] => none
  | t :: r =>
    if t = 0 then some (.vNil, r)
    else if t = 1 then
      match r with
      | [] => none
      | s :: r' =>
        match decNat r' with
        | none => none
        | some (n, r'') =>
          if s = 0 then some (.vInt (Int.ofNat n), r'')
          else if s = 1 then some (.vInt (Int.negSucc n), r'')
          else none
    else if t = 2 then
      match decBytes r with
      | none => none
      | some (bs, r') => some (.vStr bs, r')
    else none

def encTx (t : Tx) : List Nat := encBytes t.key ++ encVal t.value

def decTx (l : List Nat) : Option Tx :=
  match decBytes l with
  | none => none
  | some (k, r) =>
    match decVal r with
    | none => none
    | some (v, _) => some ⟨k, v⟩

/-! ## The in-memory map (`kvMap`), as an association list with the
map semantics of Go's `map[string]any`: lookup, insert-or-overwrite,
delete. -/

abbrev kvMap := List (List Nat × GoVal)

def mapGet : kvMap → List Nat → Option GoVal
  | [], _ => none
  | (k', v) :: rest, k => if k' = k then some v else mapGet rest k

def mapSet : kvMap → List Nat → GoVal → kvMap
  | [], k, v => [(k, v)]
  | (k', v') :: rest, k, v =>
    if k' = k then (k, v) :: rest else (k', v') :: mapSet rest k v

def mapDel : kvMap → List Nat → kvMap
  | [], _ => []
  | (k', v') :: rest, k =>
    if k' = k then mapDel rest k else (k', v') :: mapDel rest k

/-! ## Snapshot codec (`loadFromGob` / `dump`): the whole map through
the same self-describing codec (length-prefixed entry list). -/

def encEntryList : kvMap → List Nat
  | [] => []
  | (k, v) :: rest => encBytes k ++ encVal v ++ encEntryList rest

def encMap (m : kvMap) : List Nat := encNat m.length ++ encEntryList m

def decEntries : Nat → List Nat → Option (kvMap × List Nat)
  | 0, r => some ([], r)
  | n + 1, r =>
    match decBytes r with
    | none => none
    | some (k, r1) =>
      match decVal r1 with
      | none => none
      | some (v, r2) =>
        match decEntries n r2 with
        | none => none
        | some (rest, r3) => some ((k, v) :: rest, r3)

def decMap (l : List Nat) : Option kvMap :=
  match decNat l with
  | none => none
  | some (n, r) =>
    match decEntries n r with
    | none => none
    | some (m, _) => some m

/-! ## Journal replay (`log.go`: `play`) and append (`journal.log`).

`play` consumes the journal file's bytes: read a 9-byte header (EOF at
a record boundary ends replay normally; a non-empty tail shorter than
9 bytes is a short-read error), decode it, read `buflen` payload bytes
(EOF before any payload byte and a short payload read are distinct
errors in the source; both are modelled), compare the payload's CRC-32
to the header checksum (mismatch: `ErrJournalCorrupt`), decode the
payload into a `Tx`, and apply it to the map (`OpSet` inserts,
`OpUnset` deletes, any other tag falls through the `switch` applying
nothing).  The Go function mutates the map in place and returns an
error; the model returns the map as mutated so far together with the
optional error. -/

def OpSet : Nat := 1
def OpUnset : Nat := 2

inductive PlayErr where
  | shortHeader (got : Nat)
  | decodeHeader
  | readBuf
  | shortBuf (want got : Nat)
  | corrupt
  | decodeTx
deriving DecidableEq, Repr

def applyOp (m : kvMap) (op : Nat) (t : Tx) : kvMap :=
  if op = OpSet then mapSet m t.key t.value
  else if op = OpUnset then mapDel m t.key
  else m

def play (bytes : List Nat) (m : kvMap) : kvMap × Option PlayErr :=
  if bytes = [] then (m, none)
  else if bytes.length < 9 then (m, some (.shortHeader bytes.length))
  else
    match jDecode (bytes.take 9) with
    | none => (m, some .decodeHeader)
    | some (op, buflen, checksum) =>
      if (bytes.drop 9) = [] ∧ buflen ≠ 0 then (m, some .readBuf)
      else if (bytes.drop 9).length < buflen then
        (m, some (.shortBuf buflen (bytes.drop 9).length))
      else
        if crc32Ieee ((bytes.drop 9).take buflen) = checksum then
          match decTx ((bytes.drop 9).take buflen) with
          | some tx => play ((bytes.drop 9).drop buflen) (applyOp m op tx)
          | none => (m, some .decodeTx)
        else (m, some .corrupt)
termination_by bytes.length
decreasing_by
  simp only [List.length_drop]
  omega

/-- The bytes one successful `journal.log(op, key, value)` appends to
the buffered writer: header (`jEncode op uint32(buf.Len()) crc`) then
the serialized `Tx` payload. -/
def logRecord (op : Nat) (key : List Nat) (value : GoVal) : List Nat :=
  jEncode op (encTx ⟨key, value⟩).length (crc32Ieee (encTx ⟨key, value⟩)) ++
    encTx ⟨key, value⟩

/-- A journal file produced by a sequence of successful appends. -/
def journalBytes (recs : List (Nat × List Nat × GoVal)) : List Nat :=
  (recs.map fun r => logRecord r.1 r.2.1 r.2.2).flatten

/-- The records' effects applied to a map in append order. -/
def applyRecs (m : kvMap) (recs : List (Nat × List Nat × GoVal)) : kvMap :=
  recs.foldl (fun acc r => applyOp acc r.1 ⟨r.2.1, r.2.2⟩) m

/-! ## The store (`main.go`).

`KV` carries the in-memory map, the snapshot file's bytes, the journal
file's bytes, the journal's buffered-writer contents (bytes written
but not yet flushed to the file), and the readiness flag.  `NewKV`
models `New(dbName, walName)`: its two `Option` arguments are the
contents of the snapshot and journal files when they exist (`none` =
file absent).  Non-journal file I/O (create/stat) is modelled as
succeeding; the journal append path takes an explicit `appendOk` flag
because the source handles its failure specially. -/

inductive KVErr where
  | notReady
  | journaling
deriving DecidableEq, Repr

structure KV where
  memory : kvMap
  snapFile : List Nat
  jfile : List Nat
  jbuf : List Nat
  ready : Bool
deriving DecidableEq, Repr

inductive NewErr where
  | loadGob
  | replay (e : PlayErr)
deriving DecidableEq, Repr

/-- Model of `New`: load (or create empty) the snapshot, then `newJournal`:
replay the journal file onto the map if the file exists, then
`os.Create` the journal afresh (truncating it; the buffered writer
starts empty). -/
def NewKV (snap wal : Option (List Nat)) : Except NewErr KV :=
  let loaded : Except NewErr (kvMap × List Nat) :=
    match snap with
    | some bytes =>
      match decMap bytes with
      | none => .error .loadGob
      | some memory => .ok (memory, bytes)
    | none => .ok ([], encMap [])
  match loaded with
  | .error e => .error e
  | .ok (memory, snapBytes) =>
    match wal with
    | some jb =>
      match play jb memory with
      | (m', none) => .ok ⟨m', snapBytes, [], [], true⟩
      | (_, some e) => .error (.replay e)
    | none => .ok ⟨memory, snapBytes, [], [], true⟩

def KV.Get (kv : KV) (key : List Nat) : Option GoVal × Bool × Option KVErr :=
  if kv.ready = false then (none, false, some .notReady)
  else
    match mapGet kv.memory key with
    | some v => (some v, true, none)
    | none => (none, false, none)

/-- Model of `Set`: mutate memory, then append to the journal; an append
failure (`appendOk = false`) is only logged — the call still
returns `nil`. -/
def KV.Set (kv : KV) (key : List Nat) (value : GoVal) (appendOk : Bool) :
    KV × Option KVErr :=
  if kv.ready = false then (kv, some .notReady)
  else
    let kv' := { kv with memory := mapSet kv.memory key value }
    if appendOk then
      ({ kv' with jbuf := kv'.jbuf ++ logRecord OpSet key value }, none)
    else (kv', none)

/-- Model of `Unset`: if the key is absent, return `(true, nil)` without
journaling.  If present, append an `OpUnset` record (surfacing an
append failure) — the source never deletes the key from `kv.memory`. -/
def KV.Unset (kv : KV) (key : List Nat) (appendOk : Bool) :
    KV × Bool × Option KVErr :=
  if kv.ready = false then (kv, false, some .notReady)
  else
    match mapGet kv.memory key with
    | none => (kv, true, none)
    | some _ =>
      if appendOk then
        ({ kv with jbuf := kv.jbuf ++ logRecord OpUnset key .vNil }, true, none)
      else (kv, true, some .journaling)

/-- Model of `Flush`: force the buffered writer's bytes into the journal file. -/
def KV.Flush (kv : KV) : KV × Option KVErr :=
  if kv.ready = false then (kv, some .notReady)
  else ({ kv with jfile := kv.jfile ++ kv.jbuf, jbuf := [] }, none)

/-- Model of `Coalesce`: run `dump` over the map over the snapshot file, then `truncate`
the journal (flush + close + re-create empty). -/
def KV.Coalesce (kv : KV) : KV × Option KVErr :=
  if kv.ready = false then (kv, some .notReady)
  else
    ({ kv with snapFile := encMap kv.memory, jfile := [], jbuf := [] }, none)

/-- Model of `Close`: flush and close the journal, drop readiness. -/
def KV.Close (kv : KV) : KV × Option KVErr :=
  if kv.ready = false then (kv, some .notReady)
  else ({ kv with jfile := kv.jfile ++ kv.jbuf, jbuf := [], ready := false }, none)

/-! ## Well-formedness of byte strings (Go `string` / `[]byte`
elements are bytes). -/

def BytesWF (bs : List Nat) : Prop := ∀ b ∈ bs, b < 256

def ValWF : GoVal → Prop
  | .vStr s => BytesWF s
  | _ => True

def TxWF (t : Tx) : Prop := BytesWF t.key ∧ ValWF t.value

/-- Well-formed record list: operation tags are bytes and payloads fit
the `uint32` length field. -/
def RecsWF (recs : List (Nat × List Nat × GoVal)) : Prop :=
  ∀ r ∈ recs, r.1 < 256 ∧ (encTx ⟨r.2.1, r.2.2⟩).length < 2 ^ 32

/-! ## Payload codec round-trips -/

theorem decNat_encNat (n : Nat) : ∀ rest, decNat (encNat n ++ rest) = some (n, rest) := by
  induction n using Nat.strong_induction_on with
  | _ n ih =>
    intro rest
    rw [encNat]
    split
    · next h => simp [decNat, h]
    · next h =>
      have hd : decNat (encNat (n / 128) ++ rest) = some (n / 128, rest) :=
        ih (n / 128) (Nat.div_lt_self (by omega) (by omega)) rest
      simp only [List.cons_append, decNat, List.append_eq]
      rw [if_neg (by omega), hd]
      simp only [Option.some.injEq, Prod.mk.injEq]
      refine ⟨?_, trivial⟩
      omega

theorem encNat_bytes_lt (n : Nat) : ∀ b ∈ encNat n, b < 256 := by
  induction n using Nat.strong_induction_on with
  | _ n ih =>
    rw [encNat]
    split
    · next h => intro b hb; simp at hb; omega
    · next h =>
      intro b hb
      simp only [List.mem_cons] at hb
      rcases hb with hb | hb
      · omega
      · exact ih (n / 128) (Nat.div_lt_self (by omega) (by omega)) b hb

theorem decBytes_encBytes (bs rest : List Nat) :
    decBytes (encBytes bs ++ rest) = some (bs, rest) := by
  simp only [encBytes, List.append_assoc, decBytes, decNat_encNat]
  rw [if_pos (by simp)]
  rw [List.take_left' rfl, List.drop_left' rfl]

theorem decVal_encVal (v : GoVal) (rest : List Nat) :
    decVal (encVal v ++ rest) = some (v, rest) := by
  match v with
  | .vNil => simp [encVal, decVal]
  | .vInt (.ofNat n) => simp [encVal, decVal, decNat_encNat]
  | .vInt (.negSucc n) => simp [encVal, decVal, decNat_encNat]
  | .vStr s => simp [encVal, decVal, decBytes_encBytes]

theorem decTx_encTx (t : Tx) : decTx (encTx t) = some t := by
  have h : encTx t = encBytes t.key ++ (encVal t.value ++ []) := by
    simp [encTx]
  rw [decTx, h, decBytes_encBytes]
  simp only [decVal_encVal]

theorem decEntries_encEntryList (m : kvMap) :
    ∀ rest, decEntries m.length (encEntryList m ++ rest) = some (m, rest) := by
  induction m with
  | nil => intro rest; simp [encEntryList, decEntries]
  | cons e t ih =>
    intro rest
    obtain ⟨k, v⟩ := e
    simp only [encEntryList, List.length_cons, decEntries, List.append_assoc,
      decBytes_encBytes, decVal_encVal, ih rest]

theorem decMap_encMap (m : kvMap) : decMap (encMap m) = some m := by
  have h : encMap m = encNat m.length ++ (encEntryList m ++ []) := by
    simp [encMap]
  rw [decMap, h, decNat_encNat]
  simp only [decEntries_encEntryList]

theorem encVal_bytes_lt (v : GoVal) (hv : ValWF v) : ∀ b ∈ encVal v, b < 256 := by
  match v with
  | .vNil => simp [encVal]
  | .vInt (.ofNat n) =>
    simp only [encVal, List.mem_cons]
    rintro b (rfl | rfl | hb) <;> first | omega | exact encNat_bytes_lt n b hb
  | .vInt (.negSucc n) =>
    simp only [encVal, List.mem_cons]
    rintro b (rfl | rfl | hb) <;> first | omega | exact encNat_bytes_lt n b hb
  | .vStr s =>
    simp only [encVal, encBytes, List.mem_cons, List.mem_append]
    rintro b (rfl | hb | hb)
    · omega
    · exact encNat_bytes_lt s.length b hb
    · exact hv b hb

theorem encTx_bytes_lt (t : Tx) (ht : TxWF t) : ∀ b ∈ encTx t, b < 256 := by
  simp only [encTx, encBytes, List.append_assoc, List.mem_append]
  rintro b (hb | hb | hb)
  · exact encNat_bytes_lt t.key.length b hb
  · exact ht.1 b hb
  · exact encVal_bytes_lt t.value ht.2 b hb

/-! ## CRC-32 facts

The table's high byte is a permutation of `0..255` (checked by
`decide`); from this, one `crcUpdate` step is injective in the running
state (for a fixed input byte) and injective in the byte (for a fixed
state), which gives: two payloads differing in exactly one in-range
byte have different CRC-32 checksums. -/

theorem xor_left_cancel {t x y : Nat} (h : t ^^^ x = t ^^^ y) : x = y := by
  have h2 := congrArg (fun z => t ^^^ z) h
  simpa [← Nat.xor_assoc, Nat.xor_self, Nat.zero_xor] using h2

theorem xor_right_cancel {x y t : Nat} (h : x ^^^ t = y ^^^ t) : x = y := by
  refine xor_left_cancel (t := t) ?_
  rw [Nat.xor_comm t x, Nat.xor_comm t y]
  exact h

theorem xor_mod_two_pow (a b k : Nat) :
    (a ^^^ b) % 2 ^ k = a % 2 ^ k ^^^ b % 2 ^ k := by
  apply Nat.eq_of_testBit_eq
  intro i
  simp only [Nat.testBit_mod_two_pow, Nat.testBit_xor]
  by_cases h : i < k <;> simp [h]

theorem xor_mod256 (a b : Nat) : (a ^^^ b) % 256 = a % 256 ^^^ b % 256 := by
  have h := xor_mod_two_pow a b 8
  norm_num at h
  exact h

theorem xor_shiftRight (a b k : Nat) :
    (a ^^^ b) >>> k = a >>> k ^^^ b >>> k := by
  apply Nat.eq_of_testBit_eq
  intro i
  simp [Nat.testBit_shiftRight, Nat.testBit_xor]

set_option maxRecDepth 100000 in
theorem crcTab_tops_nodup :
    ((List.range 256).map (fun t => crcTab t >>> 24)).Nodup := by decide

set_option maxRecDepth 100000 in
theorem crcTab_lt : ∀ i : Nat, i < 256 → crcTab i < 2 ^ 32 := by decide

theorem crcTab_top_inj {i j : Nat} (hi : i < 256) (hj : j < 256)
    (h : crcTab i >>> 24 = crcTab j >>> 24) : i = j := by
  have hi' : i < ((List.range 256).map (fun t => crcTab t >>> 24)).length := by
    simpa using hi
  have hj' : j < ((List.range 256).map (fun t => crcTab t >>> 24)).length := by
    simpa using hj
  have he : ((List.range 256).map (fun t => crcTab t >>> 24))[i] =
      ((List.range 256).map (fun t => crcTab t >>> 24))[j] := by
    simpa using h
  exact (List.Nodup.getElem_inj_iff crcTab_tops_nodup).mp he

theorem crcTab_inj {i j : Nat} (hi : i < 256) (hj : j < 256)
    (h : crcTab i = crcTab j) : i = j :=
  crcTab_top_inj hi hj (by rw [h])

theorem crcUpdate_lt {crc : Nat} (hc : crc < 2 ^ 32) (b : Nat) :
    crcUpdate crc b < 2 ^ 32 := by
  unfold crcUpdate
  refine Nat.xor_lt_two_pow (crcTab_lt _ (Nat.mod_lt _ (by norm_num))) ?_
  calc crc >>> 8 ≤ crc := by
        rw [Nat.shiftRight_eq_div_pow]; exact Nat.div_le_self _ _
    _ < 2 ^ 32 := hc

theorem foldl_crcUpdate_lt {l : List Nat} :
    ∀ {c : Nat}, c < 2 ^ 32 → l.foldl crcUpdate c < 2 ^ 32 := by
  induction l with
  | nil => intro c hc; simpa using hc
  | cons b t ih => intro c hc; simpa using ih (crcUpdate_lt hc b)

theorem crcUpdate_inj_state {c c' : Nat} (hc : c < 2 ^ 32) (hc' : c' < 2 ^ 32)
    (b : Nat) (h : crcUpdate c b = crcUpdate c' b) : c = c' := by
  unfold crcUpdate at h
  have h8 : (c >>> 8) >>> 24 = 0 := by
    rw [Nat.shiftRight_eq_div_pow, Nat.shiftRight_eq_div_pow]
    have : c / 2 ^ 8 < 2 ^ 24 := by omega
    exact Nat.div_eq_of_lt this
  have h8' : (c' >>> 8) >>> 24 = 0 := by
    rw [Nat.shiftRight_eq_div_pow, Nat.shiftRight_eq_div_pow]
    have : c' / 2 ^ 8 < 2 ^ 24 := by omega
    exact Nat.div_eq_of_lt this
  have hidx : (c ^^^ b) % 256 = (c' ^^^ b) % 256 := by
    apply crcTab_top_inj (Nat.mod_lt _ (by norm_num)) (Nat.mod_lt _ (by norm_num))
    have e : (crcTab ((c ^^^ b) % 256) ^^^ c >>> 8) >>> 24 =
        crcTab ((c ^^^ b) % 256) >>> 24 := by
      rw [xor_shiftRight, h8, Nat.xor_zero]
    have e' : (crcTab ((c' ^^^ b) % 256) ^^^ c' >>> 8) >>> 24 =
        crcTab ((c' ^^^ b) % 256) >>> 24 := by
      rw [xor_shiftRight, h8', Nat.xor_zero]
    rw [← e, ← e', h]
  have htab : crcTab ((c ^^^ b) % 256) = crcTab ((c' ^^^ b) % 256) := by rw [hidx]
  rw [htab] at h
  have h8eq : c >>> 8 = c' >>> 8 := xor_left_cancel h
  rw [Nat.shiftRight_eq_div_pow] at h8eq
  rw [Nat.shiftRight_eq_div_pow] at h8eq
  rw [xor_mod256, xor_mod256] at hidx
  have hmod : c % 256 = c' % 256 := xor_right_cancel hidx
  omega

theorem crcUpdate_ne_byte (c : Nat) {b b' : Nat} (hb : b < 256) (hb' : b' < 256)
    (hne : b ≠ b') : crcUpdate c b ≠ crcUpdate c b' := by
  unfold crcUpdate
  intro h
  have htab : crcTab ((c ^^^ b) % 256) = crcTab ((c ^^^ b') % 256) :=
    xor_right_cancel h
  have hidx := crcTab_inj (Nat.mod_lt _ (by norm_num)) (Nat.mod_lt _ (by norm_num)) htab
  rw [xor_mod256, xor_mod256, Nat.mod_eq_of_lt hb, Nat.mod_eq_of_lt hb'] at hidx
  exact hne (xor_left_cancel hidx)

theorem foldl_crcUpdate_ne {l : List Nat} :
    ∀ {c c' : Nat}, c < 2 ^ 32 → c' < 2 ^ 32 → c ≠ c' →
      l.foldl crcUpdate c ≠ l.foldl crcUpdate c' := by
  induction l with
  | nil => intro c c' _ _ hne; simpa using hne
  | cons b t ih =>
    intro c c' hc hc' hne
    simp only [List.foldl_cons]
    exact ih (crcUpdate_lt hc b) (crcUpdate_lt hc' b)
      (fun he => hne (crcUpdate_inj_state hc hc' b he))

theorem crc32Ieee_ne_of_single_byte {pre suf : List Nat} {b b' : Nat}
    (hb : b < 256) (hb' : b' < 256) (hne : b ≠ b') :
    crc32Ieee (pre ++ b :: suf) ≠ crc32Ieee (pre ++ b' :: suf) := by
  unfold crc32Ieee
  intro h
  have h2 := xor_right_cancel h
  rw [List.foldl_append, List.foldl_append] at h2
  simp only [List.foldl_cons] at h2
  have hc : pre.foldl crcUpdate 0xFFFFFFFF < 2 ^ 32 :=
    foldl_crcUpdate_lt (by norm_num)
  exact foldl_crcUpdate_ne (crcUpdate_lt hc b) (crcUpdate_lt hc b')
    (crcUpdate_ne_byte _ hb hb' hne) h2

theorem crc32Ieee_lt (data : List Nat) : crc32Ieee data < 2 ^ 32 := by
  unfold crc32Ieee
  exact Nat.xor_lt_two_pow (foldl_crcUpdate_lt (by norm_num)) (by norm_num)

/-! ## Frame codec lemmas -/

theorem jEncode_length (op len crc : Nat) : (jEncode op len crc).length = 9 := rfl

theorem jDecode_jEncode (op len crc : Nat) (hlen : len < 2 ^ 32) (hcrc : crc < 2 ^ 32) :
    jDecode (jEncode op len crc) = some (op % 256, len, crc) := by
  unfold jEncode jDecode putUint32 beUint32
  norm_num [List.getD]
  rw [Nat.shiftRight_eq_div_pow, Nat.shiftRight_eq_div_pow, Nat.shiftRight_eq_div_pow,
    Nat.shiftRight_eq_div_pow]
  constructor <;> · norm_num; omega

/-! ## Replay lemmas -/

theorem play_nil (m : kvMap) : play [] m = (m, none) := by
  rw [play]
  simp

/-- One well-framed record at the head of the journal: replay checks
its CRC and either applies it and continues, or stops. -/
theorem play_record_head (op len2 crc2 : Nat) (payload rest : List Nat) (m : kvMap)
    (hplen : payload.length = len2) (hl : len2 < 2 ^ 32) (hc : crc2 < 2 ^ 32) :
    play (jEncode op len2 crc2 ++ (payload ++ rest)) m =
      if crc32Ieee payload = crc2 then
        match decTx payload with
        | some tx => play rest (applyOp m (op % 256) tx)
        | none => (m, some .decodeTx)
      else (m, some .corrupt) := by
  have hb1 : ¬(jEncode op len2 crc2 ++ (payload ++ rest) = []) := by
    simp [jEncode]
  have hb2 : ¬((jEncode op len2 crc2 ++ (payload ++ rest)).length < 9) := by
    simp [jEncode, putUint32]
  have h3 : (jEncode op len2 crc2 ++ (payload ++ rest)).take 9 = jEncode op len2 crc2 :=
    List.take_left' (jEncode_length op len2 crc2)
  have h4 : (jEncode op len2 crc2 ++ (payload ++ rest)).drop 9 = payload ++ rest :=
    List.drop_left' (jEncode_length op len2 crc2)
  have h5 : jDecode (jEncode op len2 crc2) = some (op % 256, len2, crc2) :=
    jDecode_jEncode _ _ _ hl hc
  have h6 : ¬(payload ++ rest = [] ∧ len2 ≠ 0) := by
    rintro ⟨hnil, hlen0⟩
    have hp : payload = [] := by
      cases payload <;> simp_all
    rw [hp] at hplen
    simp at hplen
    omega
  have h7 : ¬((payload ++ rest).length < len2) := by
    simp only [List.length_append]
    omega
  have h8 : (payload ++ rest).take len2 = payload := List.take_left' hplen
  have h9 : (payload ++ rest).drop len2 = rest := List.drop_left' hplen
  conv_lhs => rw [play]
  simp only [if_neg hb1, if_neg hb2, h3, h4, h5, h6, h7, h8, h9, if_neg,
    ite_false, eq_self_iff_true]

/-- Replaying the bytes of one successful append applies exactly that
record's effect and continues with the remaining bytes. -/
theorem play_logRecord (op : Nat) (k : List Nat) (v : GoVal) (rest : List Nat)
    (m : kvMap) (hlen : (encTx ⟨k, v⟩).length < 2 ^ 32) :
    play (logRecord op k v ++ rest) m = play rest (applyOp m (op % 256) ⟨k, v⟩) := by
  have h := play_record_head op (encTx ⟨k, v⟩).length (crc32Ieee (encTx ⟨k, v⟩))
    (encTx ⟨k, v⟩) rest m rfl hlen (crc32Ieee_lt _)
  rw [logRecord, List.append_assoc, h]
  simp [decTx_encTx]

theorem play_journalBytes (recs : List (Nat × List Nat × GoVal)) (h : RecsWF recs) :
    ∀ (tail : List Nat) (m : kvMap),
      play (journalBytes recs ++ tail) m = play tail (applyRecs m recs) := by
  induction recs with
  | nil => intro tail m; simp [journalBytes, applyRecs]
  | cons r t ih =>
    intro tail m
    have hr := h r (List.mem_cons_self r t)
    have ht : RecsWF t := fun x hx => h x (List.mem_cons_of_mem _ hx)
    simp only [journalBytes, List.map_cons, List.flatten_cons, List.append_assoc]
    rw [show ((t.map fun r => logRecord r.1 r.2.1 r.2.2).flatten ++ tail) =
      journalBytes t ++ tail from rfl]
    rw [play_logRecord r.1 r.2.1 r.2.2 _ m hr.2, ih ht]
    rw [Nat.mod_eq_of_lt hr.1]
    simp [applyRecs]

/-- A record whose stored checksum does not match its payload aborts
replay with the corruption error, keeping the map as already built. -/
theorem play_corrupt_head (op len2 crc2 : Nat) (payload rest : List Nat) (m : kvMap)
    (hplen : payload.length = len2) (hl : len2 < 2 ^ 32) (hc : crc2 < 2 ^ 32)
    (hbad : crc32Ieee payload ≠ crc2) :
    play (jEncode op len2 crc2 ++ (payload ++ rest)) m = (m, some .corrupt) := by
  rw [play_record_head op len2 crc2 payload rest m hplen hl hc, if_neg hbad]

/-! ## Map lemmas -/

theorem mapGet_mapSet (m : kvMap) (k : List Nat) (v : GoVal) :
    mapGet (mapSet m k v) k = some v := by
  induction m with
  | nil => simp [mapSet, mapGet]
  | cons e t ih =>
    obtain ⟨k', v'⟩ := e
    by_cases h : k' = k
    · simp [mapSet, h, mapGet]
    · simp [mapSet, h, mapGet, ih]

theorem encNat_small {n : Nat} (h : n < 128) : encNat n = [n] := by
  rw [encNat]
  simp [h]

theorem journalBytes_append (a b : List (Nat × List Nat × GoVal)) :
    journalBytes (a ++ b) = journalBytes a ++ journalBytes b := by
  simp [journalBytes]

theorem applyRecs_append (m : kvMap) (a b : List (Nat × List Nat × GoVal)) :
    applyRecs m (a ++ b) = applyRecs (applyRecs m a) b := by
  simp [applyRecs]

theorem recsWF_append {a b : List (Nat × List Nat × GoVal)} (ha : RecsWF a)
    (hb : RecsWF b) : RecsWF (a ++ b) := by
  intro r hr
  rcases List.mem_append.mp hr with h | h
  · exact ha r h
  · exact hb r h

/-! ## The claims -/

/-- Claim C7: for every operation tag `op` (a byte) and 32-bit length
and checksum, decoding the 9-byte header produced by encoding
`(op, length, checksum)` returns exactly `(op, length, checksum)` with
no error. -/
theorem c7_header_roundtrip (op len crc : Nat) (hop : op < 256)
    (hlen : len < 2 ^ 32) (hcrc : crc < 2  ^ 32) :
    jDecode (jEncode op len crc) = some (op, len, crc) := by
  rw [jDecode_jEncode op len crc hlen hcrc, Nat.mod_eq_of_lt hop]

/-- Witness for C7 at `(op, len, crc) = (1, 42, 2424)`. -/
theorem c7_header_roundtrip_witness :
    (1 : Nat) < 256 ∧ (42 : Nat) < 2 ^ 32 ∧ (2424 : Nat) < 2 ^ 32 ∧
    jDecode (jEncode 1 42 2424) = some (1, 42, 2424) :=
  ⟨by norm_num, by norm_num, by norm_num,
    c7_header_roundtrip 1 42 2424 (by norm_num) (by norm_num) (by norm_num)⟩

/-- Claim C8: the header encoder produces exactly 9 bytes — byte 0 the
operation tag (with `OpSet = 1`, `OpUnset = 2`), bytes 1–4 the length
big-endian, bytes 5–8 the checksum big-endian — and the decoder errors
on every input whose length is not 9 and succeeds on every 9-byte
input. -/
theorem c8_header_layout (op len crc : Nat) (hop : op < 256)
    (_hlen : len < 2 ^ 32) (_hcrc : crc < 2 ^ 32) :
    (jEncode op len crc).length = 9 ∧
    OpSet = 1 ∧ OpUnset = 2 ∧
    jEncode op len crc =
      [op, len / 2 ^ 24 % 256, len / 2 ^ 16 % 256, len / 2 ^ 8 % 256, len % 256,
        crc / 2 ^ 24 % 256, crc / 2 ^ 16 % 256, crc / 2 ^ 8 % 256, crc % 256] ∧
    (∀ buf : List Nat, buf.length ≠ 9 → jDecode buf = none) ∧
    (∀ buf : List Nat, buf.length = 9 → (jDecode buf).isSome = true) := by
  refine ⟨rfl, rfl, rfl, ?_, ?_, ?_⟩
  · simp [jEncode, putUint32, Nat.shiftRight_eq_div_pow, Nat.mod_eq_of_lt hop]
  · intro buf hne
    simp [jDecode, hne]
  · intro buf h9
    simp [jDecode, h9]

/-- Witness for C8 at `(op, len, crc) = (2, 3, 5)`. -/
theorem c8_header_layout_witness :
    (2 : Nat) < 256 ∧ (3 : Nat) < 2 ^ 32 ∧ (5 : Nat) < 2 ^ 32 ∧
    ((jEncode 2 3 5).length = 9 ∧
      OpSet = 1 ∧ OpUnset = 2 ∧
      jEncode 2 3 5 =
        [2, 3 / 2 ^ 24 % 256, 3 / 2 ^ 16 % 256, 3 / 2 ^ 8 % 256, 3 % 256,
          5 / 2 ^ 24 % 256, 5 / 2 ^ 16 % 256, 5 / 2 ^ 8 % 256, 5 % 256] ∧
      (∀ buf : List Nat, buf.length ≠ 9 → jDecode buf = none) ∧
      (∀ buf : List Nat, buf.length = 9 → (jDecode buf).isSome = true)) :=
  ⟨by norm_num, by norm_num, by norm_num,
    c8_header_layout 2 3 5 (by norm_num) (by norm_num) (by norm_num)⟩

/-- Claim C4: on a ready store, `Set(key, value)` returns `nil` whether
or not the journal append succeeds, and in either outcome the
in-memory map afterwards maps `key` to `value`. -/
theorem c4_set_swallows_append_failure (kv : KV) (h : kv.ready = true)
    (k : List Nat) (v : GoVal) (appendOk : Bool) :
    (kv.Set k v appendOk).2 = none ∧
    mapGet (kv.Set k v appendOk).1.memory k = some v := by
  cases appendOk <;> simp [KV.Set, h, mapGet_mapSet]

/-- Witness for C4: a ready store with an empty map, failing append. -/
theorem c4_set_swallows_append_failure_witness :
    (⟨[], [], [], [], true⟩ : KV).ready = true ∧
    ((KV.Set ⟨[], [], [], [], true⟩ [97] (GoVal.vInt 1) false).2 = none ∧
      mapGet (KV.Set ⟨[], [], [], [], true⟩ [97] (GoVal.vInt 1) false).1.memory [97] =
        some (GoVal.vInt 1)) :=
  ⟨rfl, c4_set_swallows_append_failure _ rfl [97] (GoVal.vInt 1) false⟩

/-- Claim C9: on a ready store, `Unset` of an absent key returns
`(true, nil)` and leaves the whole store — in particular the journal's
buffered and on-disk bytes — unchanged. -/
theorem c9_unset_absent_no_journal (kv : KV) (h : kv.ready = true)
    (k : List Nat) (habs : mapGet kv.memory k = none) (appendOk : Bool) :
    kv.Unset k appendOk = (kv, true, none) := by
  simp [KV.Unset, h, habs]

/-- Witness for C9: ready store holding only key `[98]`, unset `[97]`. -/
theorem c9_unset_absent_no_journal_witness :
    (⟨[([98], GoVal.vInt 1)], [], [], [], true⟩ : KV).ready = true ∧
    mapGet (⟨[([98], GoVal.vInt 1)], [], [], [], true⟩ : KV).memory [97] = none ∧
    KV.Unset ⟨[([98], GoVal.vInt 1)], [], [], [], true⟩ [97] true =
      (⟨[([98], GoVal.vInt 1)], [], [], [], true⟩, true, none) :=
  ⟨rfl, rfl,
    c9_unset_absent_no_journal ⟨[([98], GoVal.vInt 1)], [], [], [], true⟩ rfl [97] rfl true⟩

/-- Claim C1 (code bug): `Unset` of a present key appends the Unset
record and returns `(true, nil)`, but — contrary to the claim — never
deletes the key from the in-memory map: an immediately following `Get`
still returns `found = true`.  (Replay of the very record it wrote
*does* delete the key, so the live map and the recovered map
disagree.) -/
theorem c1_unset_leaves_key_in_memory :
    KV.Unset ⟨[([97], GoVal.vInt 1)], [], [], [], true⟩ [97] true =
      (⟨[([97], GoVal.vInt 1)], [], [], logRecord OpUnset [97] GoVal.vNil, true⟩,
        true, none) ∧
    KV.Get ⟨[([97], GoVal.vInt 1)], [], [], logRecord OpUnset [97] GoVal.vNil, true⟩
        [97] = (some (GoVal.vInt 1), true, none) ∧
    applyOp [([97], GoVal.vInt 1)] OpUnset ⟨[97], GoVal.vNil⟩ = [] :=
  ⟨rfl, rfl, rfl⟩

/-- Claim C5: a successful `Coalesce` empties the journal (file and
buffer), and a fresh store built over the resulting snapshot and
journal files has the same in-memory map as before. -/
theorem c5_coalesce_roundtrip (kv : KV) (h : kv.ready = true) :
    (kv.Coalesce).1.jfile = [] ∧ (kv.Coalesce).1.jbuf = [] ∧
    (kv.Coalesce).2 = none ∧
    ∃ kv2 : KV,
      NewKV (some (kv.Coalesce).1.snapFile) (some (kv.Coalesce).1.jfile) =
        Except.ok kv2 ∧
      kv2.memory = kv.memory := by
  have hco : kv.Coalesce =
      ({ kv with snapFile := encMap kv.memory, jfile := [], jbuf := [] }, none) := by
    simp [KV.Coalesce, h]
  rw [hco]
  refine ⟨rfl, rfl, rfl, ⟨kv.memory, encMap kv.memory, [], [], true⟩, ?_, rfl⟩
  simp only [NewKV, decMap_encMap, play_nil]

/-- Witness for C5: ready store holding one key. -/
theorem c5_coalesce_roundtrip_witness :
    (⟨[([97], GoVal.vInt 1)], [], [], [], true⟩ : KV).ready = true ∧
    ((KV.Coalesce ⟨[([97], GoVal.vInt 1)], [], [], [], true⟩).1.jfile = [] ∧
      (KV.Coalesce ⟨[([97], GoVal.vInt 1)], [], [], [], true⟩).1.jbuf = [] ∧
      (KV.Coalesce ⟨[([97], GoVal.vInt 1)], [], [], [], true⟩).2 = none ∧
      ∃ kv2 : KV,
        NewKV (some (KV.Coalesce ⟨[([97], GoVal.vInt 1)], [], [], [], true⟩).1.snapFile)
            (some (KV.Coalesce ⟨[([97], GoVal.vInt 1)], [], [], [], true⟩).1.jfile) =
          Except.ok kv2 ∧
        kv2.memory = (⟨[([97], GoVal.vInt 1)], [], [], [], true⟩ : KV).memory) :=
  ⟨rfl, c5_coalesce_roundtrip _ rfl⟩

/-- Claim C2: on any ready store whose journal bytes (file plus
buffer) are a sequence of well-formed appends and whose snapshot file
decodes, `Set(k, v)` then `Flush` leaves files from which a fresh store
construction replays the appended record's bytes, and `Get(k)` on the
fresh store returns `(v, true)`. -/
theorem c2_set_flush_reopen_get (kv0 : KV) (h : kv0.ready = true)
    (recs : List (Nat × List Nat × GoVal)) (hrecs : RecsWF recs)
    (hj : kv0.jfile ++ kv0.jbuf = journalBytes recs)
    (m0 : kvMap) (hs : decMap kv0.snapFile = some m0)
    (k : List Nat) (v : GoVal) (hlen : (encTx ⟨k, v⟩).length < 2 ^ 32) :
    ∃ kv2 : KV,
      NewKV (some (((kv0.Set k v true).1.Flush).1.snapFile))
        (some (((kv0.Set k v true).1.Flush).1.jfile)) = Except.ok kv2 ∧
      kv2.Get k = (some v, true, none) := by
  have hset : kv0.Set k v true =
      (⟨mapSet kv0.memory k v, kv0.snapFile, kv0.jfile,
        kv0.jbuf ++ logRecord OpSet k v, kv0.ready⟩, none) := by
    simp [KV.Set, h]
  have hfl : (kv0.Set k v true).1.Flush =
      (⟨mapSet kv0.memory k v, kv0.snapFile,
        kv0.jfile ++ (kv0.jbuf ++ logRecord OpSet k v), [], kv0.ready⟩, none) := by
    rw [hset]
    simp [KV.Flush, h]
  rw [hfl]
  have hbytes : kv0.jfile ++ (kv0.jbuf ++ logRecord OpSet k v) =
      journalBytes recs ++ (logRecord OpSet k v ++ []) := by
    rw [← List.append_assoc, hj, List.append_nil]
  have hplay : play (kv0.jfile ++ (kv0.jbuf ++ logRecord OpSet k v)) m0 =
      (mapSet (applyRecs m0 recs) k v, none) := by
    rw [hbytes, play_journalBytes recs hrecs,
      play_logRecord _ _ _ _ _ hlen, play_nil]
    simp [applyOp, OpSet]
  refine ⟨⟨mapSet (applyRecs m0 recs) k v, kv0.snapFile, [], [], true⟩, ?_, ?_⟩
  · simp only [NewKV, hs, hplay]
  · simp [KV.Get, mapGet_mapSet]

/-- Witness for C2: fresh empty store, `k = [104]`, `v = vNil`. -/
theorem c2_set_flush_reopen_get_witness :
    (⟨[], encMap [], [], [], true⟩ : KV).ready = true ∧
    RecsWF [] ∧
    (⟨[], encMap [], [], [], true⟩ : KV).jfile ++
      (⟨[], encMap [], [], [], true⟩ : KV).jbuf = journalBytes [] ∧
    decMap (⟨[], encMap [], [], [], true⟩ : KV).snapFile = some [] ∧
    (encTx ⟨[104], GoVal.vNil⟩).length < 2 ^ 32 ∧
    ∃ kv2 : KV,
      NewKV
          (some ((((⟨[], encMap [], [], [], true⟩ : KV).Set [104] GoVal.vNil
            true).1.Flush).1.snapFile))
          (some ((((⟨[], encMap [], [], [], true⟩ : KV).Set [104] GoVal.vNil
            true).1.Flush).1.jfile)) = Except.ok kv2 ∧
      kv2.Get [104] = (some GoVal.vNil, true, none) :=
  ⟨rfl, by intro r hr; simp at hr, rfl, decMap_encMap [],
    by simp [encTx, encBytes, encVal, encNat_small],
    c2_set_flush_reopen_get ⟨[], encMap [], [], [], true⟩ rfl []
      (by intro r hr; simp at hr) rfl [] (decMap_encMap [])
      [104] GoVal.vNil (by simp [encTx, encBytes, encVal, encNat_small])⟩

/-- Claim C3: a journal of valid records followed by a record whose
stored checksum does not match its payload replays to the corruption
error, with the map holding exactly the preceding records' effects in
append order. -/
theorem c3_replay_corrupt_keeps_prefix (recs : List (Nat × List Nat × GoVal))
    (hwf : RecsWF recs) (op2 len2 crc2 : Nat) (payload rest : List Nat) (m : kvMap)
    (hplen : payload.length = len2) (hl : len2 < 2 ^ 32) (hc : crc2 < 2 ^ 32)
    (hbad : crc32Ieee payload ≠ crc2) :
    play (journalBytes recs ++ (jEncode op2 len2 crc2 ++ (payload ++ rest))) m =
      (applyRecs m recs, some PlayErr.corrupt) := by
  rw [play_journalBytes recs hwf,
    play_corrupt_head op2 len2 crc2 payload rest _ hplen hl hc hbad]

/-- Witness for C3: one valid Set record, then a record whose header
claims checksum 5 over an empty payload (its CRC-32 is 0). -/
theorem c3_replay_corrupt_keeps_prefix_witness :
    RecsWF [(1, [97], GoVal.vNil)] ∧ ([] : List Nat).length = 0 ∧
    (0 : Nat) < 2 ^ 32 ∧ (5 : Nat) < 2 ^ 32 ∧ crc32Ieee [] ≠ 5 ∧
    play (journalBytes [(1, [97], GoVal.vNil)] ++ (jEncode 7 0 5 ++ ([] ++ []))) [] =
      (applyRecs [] [(1, [97], GoVal.vNil)], some PlayErr.corrupt) :=
  ⟨by
      intro r hr
      simp only [List.mem_singleton] at hr
      subst hr
      exact ⟨by norm_num, by simp [encTx, encBytes, encVal, encNat_small]⟩,
    rfl, by norm_num, by norm_num, by decide,
    c3_replay_corrupt_keeps_prefix [(1, [97], GoVal.vNil)]
      (by
        intro r hr
        simp only [List.mem_singleton] at hr
        subst hr
        exact ⟨by norm_num, by simp [encTx, encBytes, encVal, encNat_small]⟩)
      7 0 5 [] [] [] rfl (by norm_num) (by norm_num) (by decide)⟩

/-- Claim C6: in a journal of successful appends, changing any single
payload byte of any record to a different byte makes replay fail with
the corruption error (CRC-32 detects every single-byte alteration). -/
theorem c6_single_byte_flip_detected (pre : List (Nat × List Nat × GoVal))
    (hpre : RecsWF pre) (post : List (Nat × List Nat × GoVal))
    (op : Nat) (k : List Nat) (v : GoVal) (htx : TxWF ⟨k, v⟩)
    (hlen : (encTx ⟨k, v⟩).length < 2 ^ 32)
    (p : Nat) (hp : p < (encTx ⟨k, v⟩).length) (b' : Nat) (hb' : b' < 256)
    (hne : b' ≠ (encTx ⟨k, v⟩).getD p 0) (m : kvMap) :
    play (journalBytes pre ++
        (jEncode op (encTx ⟨k, v⟩).length (crc32Ieee (encTx ⟨k, v⟩)) ++
          ((encTx ⟨k, v⟩).set p b' ++ journalBytes post))) m =
      (applyRecs m pre, some PlayErr.corrupt) ∧
    NewKV (some (encMap m))
        (some (journalBytes pre ++
          (jEncode op (encTx ⟨k, v⟩).length (crc32Ieee (encTx ⟨k, v⟩)) ++
            ((encTx ⟨k, v⟩).set p b' ++ journalBytes post)))) =
      Except.error (NewErr.replay PlayErr.corrupt) := by
  have hgd : (encTx ⟨k, v⟩).getD p 0 = (encTx ⟨k, v⟩)[p] := by
    simp [List.getD_eq_getElem?_getD, List.getElem?_eq_getElem hp]
  rw [hgd] at hne
  have hbp : (encTx ⟨k, v⟩)[p] < 256 :=
    encTx_bytes_lt _ htx _ (List.getElem_mem hp)
  have hbuf : encTx ⟨k, v⟩ =
      (encTx ⟨k, v⟩).take p ++ (encTx ⟨k, v⟩)[p] :: (encTx ⟨k, v⟩).drop (p + 1) := by
    conv_lhs => rw [← List.take_append_drop p (encTx ⟨k, v⟩)]
    rw [List.drop_eq_getElem_cons hp]
  have hset : (encTx ⟨k, v⟩).set p b' =
      (encTx ⟨k, v⟩).take p ++ b' :: (encTx ⟨k, v⟩).drop (p + 1) :=
    List.set_eq_take_cons_drop b' hp
  have hbad : crc32Ieee ((encTx ⟨k, v⟩).set p b') ≠ crc32Ieee (encTx ⟨k, v⟩) := by
    rw [hset]
    conv_rhs => rw [hbuf]
    exact crc32Ieee_ne_of_single_byte hb' hbp hne
  have hmain : play (journalBytes pre ++
      (jEncode op (encTx ⟨k, v⟩).length (crc32Ieee (encTx ⟨k, v⟩)) ++
        ((encTx ⟨k, v⟩).set p b' ++ journalBytes post))) m =
      (applyRecs m pre, some PlayErr.corrupt) := by
    rw [play_journalBytes pre hpre]
    exact play_corrupt_head op (encTx ⟨k, v⟩).length (crc32Ieee (encTx ⟨k, v⟩))
      ((encTx ⟨k, v⟩).set p b') (journalBytes post) _ (by simp) hlen
      (crc32Ieee_lt _) hbad
  refine ⟨hmain, ?_⟩
  simp only [NewKV, decMap_encMap, hmain]

/-- Witness for C6: single record for key `[97]`, flip payload byte 1
(the key byte) from 97 to 98. -/
theorem c6_single_byte_flip_detected_witness :
    TxWF ⟨[97], GoVal.vNil⟩ ∧ (encTx ⟨[97], GoVal.vNil⟩).length < 2 ^ 32 ∧
    1 < (encTx ⟨[97], GoVal.vNil⟩).length ∧ (98 : Nat) < 256 ∧
    (98 : Nat) ≠ (encTx ⟨[97], GoVal.vNil⟩).getD 1 0 ∧
    (play (journalBytes [] ++
        (jEncode 1 (encTx ⟨[97], GoVal.vNil⟩).length
            (crc32Ieee (encTx ⟨[97], GoVal.vNil⟩)) ++
          ((encTx ⟨[97], GoVal.vNil⟩).set 1 98 ++ journalBytes []))) [] =
      (applyRecs [] [], some PlayErr.corrupt) ∧
    NewKV (some (encMap []))
        (some (journalBytes [] ++
          (jEncode 1 (encTx ⟨[97], GoVal.vNil⟩).length
              (crc32Ieee (encTx ⟨[97], GoVal.vNil⟩)) ++
            ((encTx ⟨[97], GoVal.vNil⟩).set 1 98 ++ journalBytes [])))) =
      Except.error (NewErr.replay PlayErr.corrupt)) :=
  ⟨⟨by intro b hb; simp at hb; omega, trivial⟩,
    by simp [encTx, encBytes, encVal, encNat_small],
    by simp [encTx, encBytes, encVal, encNat_small],
    by norm_num,
    by simp [encTx, encBytes, encVal, encNat_small],
    c6_single_byte_flip_detected [] (by intro r hr; simp at hr) [] 1 [97] GoVal.vNil
      ⟨by intro b hb; simp at hb; omega, trivial⟩
      (by simp [encTx, encBytes, encVal, encNat_small])
      1 (by simp [encTx, encBytes, encVal, encNat_small]) 98 (by norm_num)
      (by simp [encTx, encBytes, encVal, encNat_small]) []⟩

/-- Claim C10: a replayed record whose tag is neither 1 (`OpSet`) nor
2 (`OpUnset`) — including the reserved tag 0 — passes the checksum and
decode steps, leaves the map unchanged, and replay continues with the
next record. -/
theorem c10_unknown_tag_skipped (op : Nat) (hop : op < 256) (h1 : op ≠ OpSet)
    (h2 : op ≠ OpUnset) (k : List Nat) (v : GoVal)
    (hlen : (encTx ⟨k, v⟩).length < 2 ^ 32) (rest : List Nat) (m : kvMap) :
    play (logRecord op k v ++ rest) m = play rest m := by
  rw [play_logRecord op k v rest m hlen, Nat.mod_eq_of_lt hop]
  unfold applyOp
  rw [if_neg h1, if_neg h2]

/-- Witness for C10: the reserved tag 0 ahead of further bytes. -/
theorem c10_unknown_tag_skipped_witness :
    (0 : Nat) < 256 ∧ (0 : Nat) ≠ OpSet ∧ (0 : Nat) ≠ OpUnset ∧
    (encTx ⟨[97], GoVal.vNil⟩).length < 2 ^ 32 ∧
    play (logRecord 0 [97] GoVal.vNil ++ [42]) [([98], GoVal.vInt 7)] =
      play [42] [([98], GoVal.vInt 7)] :=
  ⟨by norm_num, by decide, by decide,
    by simp [encTx, encBytes, encVal, encNat_small],
    c10_unknown_tag_skipped 0 (by norm_num) (by decide) (by decide) [97] GoVal.vNil
      (by simp [encTx, encBytes, encVal, encNat_small]) [42] [([98], GoVal.vInt 7)]⟩

end GoKV
